import Mathlib

/-!
Verification of the Int64 value type from `src/Int64.js` (node-int64).

The 8-byte buffer is modelled as a `List Nat` of byte values together with a
byte offset; JavaScript numbers reaching the byte-writing loop are modelled
as `Option Int` (`none` stands for NaN, which `parseInt` can produce).
Native numbers handed to the numeric construction path are modelled at
integer points: every integer of magnitude below 2^53 is exactly
representable as an IEEE-754 double, and the only floating-point operations
on that path (`% 2^32` of an integer, division by the power of two 2^32)
are exact on doubles, so integer arithmetic is a faithful model there.

Out-of-range buffer reads yield `undefined` in JavaScript; under the bit
operations used here (`^ 0xff`, `& 0xff`, `>>> 8`) `undefined` coerces to 0,
which matches `List.getD _ _ 0`.  Out-of-range buffer writes are ignored,
which matches `List.set`.
-/

/-- Read byte `i` of the buffer: `b[i]`.  Out of range gives `undefined`,
which coerces to 0 under every bit operation the source applies to it. -/
def byteAt (b : List Nat) (i : Nat) : Nat := b.getD i 0

/-- `VAL32 = 0x100000000` from the source. -/
def VAL32 : Nat := 4294967296

/-- `Int64.MAX_INT = Math.pow(2, 53)` from the source. -/
def MAX_INT : Nat := 9007199254740992

/-- Result of `valueOf`: a JS number that is either an exact integer or a
signed infinity (the only values `valueOf` can produce). -/
inductive JSNum where
  | finite : Int → JSNum
  | posInf : JSNum
  | negInf : JSNum
deriving DecidableEq, Repr

/-- JS `ToUint32` on an integer-valued number: wrap into `[0, 2^32)`. -/
def jsToUint32 (x : Int) : Nat := (x % (4294967296 : Int)).toNat

/-- JS `v & 0xff` where `v` is an integer-valued number or NaN
(`ToInt32(NaN) = 0`); equals `(v mod 2^32) mod 256`. -/
def jsAnd255 : Option Int → Nat
  | none => 0
  | some x => (x % 4294967296 % 256).toNat

/-- JS `v >>> 8` where `v` is an integer-valued number or NaN:
`ToUint32` then shift right by 8 (on the nonnegative `x % 2^32` the `Int`
division is the floor shift). -/
def jsShr8 : Option Int → Option Int
  | none => some 0
  | some x => some (x % 4294967296 / 256)

/-- The byte-copy loop of `setValue`:
`for (i = 7; i >= 0; i--) { b[o+i] = lo & 0xff; lo = i == 4 ? hi : lo >>> 8; }`.
The fuel argument is the current loop index `i`. -/
def setBytesAux (o : Nat) (hi : Option Int) : Nat → Option Int → List Nat → List Nat
  | 0, lo, b => b.set o (jsAnd255 lo)
  | i + 1, lo, b =>
      setBytesAux o hi i (if i + 1 == 4 then hi else jsShr8 lo)
        (b.set (o + (i + 1)) (jsAnd255 lo))

/-- Run the byte-copy loop of `setValue` from index 7 down to 0. -/
def writeHiLo (b : List Nat) (o : Nat) (hi lo : Option Int) : List Nat :=
  setBytesAux o hi 7 lo b

/-- One sweep of `_2scomp`:
`for (i = o+7; i >= o; i--) { v = (b[i] ^ 0xff) + carry; b[i] = v & 0xff; carry = v >> 8; }`.
The fuel argument counts the remaining iterations; iteration with fuel `j+1`
touches index `o + j`. -/
def twosCompIter (o : Nat) : Nat → Nat → List Nat → List Nat
  | 0, _, b => b
  | j + 1, carry, b =>
      twosCompIter o j ((Nat.xor (byteAt b (o + j)) 255 + carry) / 256)
        (b.set (o + j) ((Nat.xor (byteAt b (o + j)) 255 + carry) % 256))

/-- `_2scomp`: in-place two's complement of the 8 bytes at `[o, o+8)`,
starting with carry 1. -/
def twosComp (b : List Nat) (o : Nat) : List Nat := twosCompIter o 8 1 b

/-- The accumulation loop of `valueOf`.  Iteration `i` reads `b[o + 7 - i]`;
the result is the pair `(x, carry)` after `fuel` iterations.  The JS float
accumulator is exact here: each term `(v & 0xff) * 256^i` is an exact
double, partial sums below 2^53 are exact integers, and once a partial sum
reaches 2^53 it stays at or above 2^53, so the comparison
`x >= Int64.MAX_INT` and any finite value returned agree with this exact
integer model. -/
def valueOfAux (b : List Nat) (o : Nat) (negate : Bool) : Nat → Nat × Nat
  | 0 => (0, 1)
  | i + 1 =>
      let p := valueOfAux b o negate i
      let v := if negate then Nat.xor (byteAt b (o + (7 - i))) 255 + p.2
               else byteAt b (o + (7 - i))
      (p.1 + v % 256 * 256 ^ i, if negate then v / 256 else p.2)

/-- `valueOf`: convert the stored bytes to a JS number.  Note the source
reads the sign flag from `b[0]` — absolute index 0 of the underlying
buffer, not `b[o]`. -/
def valueOf (b : List Nat) (o : Nat) : JSNum :=
  let negate : Bool := Nat.land (byteAt b 0) 128 != 0
  let x := (valueOfAux b o negate 8).1
  if MAX_INT ≤ x then (if negate then JSNum.negInf else JSNum.posInf)
  else (if negate then JSNum.finite (-(x : Int)) else JSNum.finite (x : Int))

/-- The numeric path of `setValue` (single number argument).  `Math.abs`,
`% VAL32` of an integer and the division `hi / VAL32` (by a power of two)
are exact on doubles, so the range test `hi > VAL32` is the exact rational
comparison modelled here.  `hi = hi | 0` (`ToInt32`) only matters modulo
2^32 for the byte writes that follow, hence the `% VAL32`.  Returns `none`
when the source throws its RangeError. -/
def setValueNum (b : List Nat) (o : Nat) (n : Int) : Option (List Nat) :=
  let m : Nat := n.natAbs
  if (VAL32 : ℚ) < (m : ℚ) / (VAL32 : ℚ) then none
  else
    let b2 := writeHiLo b o (some ((m / VAL32 % VAL32 : Nat) : Int))
      (some ((m % VAL32 : Nat) : Int))
    some (if n < 0 then twosComp b2 o else b2)

/-- JS `parseInt` digit test for radix 16. -/
def isHexDigit (c : Char) : Bool :=
  (['0', '1', '2', '3', '4', '5', '6', '7', '8', '9',
    'A', 'B', 'C', 'D', 'E', 'F',
    'a', 'b', 'c', 'd', 'e', 'f'] : List Char).contains c

/-- Numeric value of a hex digit (0 for non-digits, unused there). -/
def hexVal (c : Char) : Nat :=
  if 48 ≤ c.toNat ∧ c.toNat ≤ 57 then c.toNat - 48
  else if 97 ≤ c.toNat ∧ c.toNat ≤ 102 then c.toNat - 87
  else if 65 ≤ c.toNat ∧ c.toNat ≤ 70 then c.toNat - 55
  else 0

/-- JS `StrWhiteSpace` characters skipped by `parseInt` (the ASCII ones;
non-ASCII whitespace never occurs in the claims considered). -/
def isSpaceJS (c : Char) : Bool :=
  c = ' ' ∨ c.toNat = 9 ∨ c.toNat = 10 ∨ c.toNat = 11 ∨ c.toNat = 12 ∨ c.toNat = 13

/-- Optional sign consumed by `parseInt`. -/
def signSplit (s : List Char) : Int × List Char :=
  if s.head? = some '-' then (-1, s.tail)
  else if s.head? = some '+' then (1, s.tail)
  else (1, s)

/-- `parseInt` with radix 16 strips one leading `0x` or `0X`. -/
def dropHexMark (s : List Char) : List Char :=
  if s.take 2 = ['0', 'x'] ∨ s.take 2 = ['0', 'X'] then s.drop 2 else s

/-- Unsigned value of a digit string, most significant digit first. -/
def digitsVal (s : List Char) : Nat :=
  s.foldl (fun a c => a * 16 + hexVal c) 0

/-- JS `parseInt(s, 16)`: skip whitespace, optional sign, optional `0x`,
then the maximal leading run of hex digits; NaN (`none`) if that run is
empty.  Exact integer model; the float rounding `parseInt` applies to
results of more than 2^53 never matters for the claims proved here (only
NaN-ness and values below 2^32 are used). -/
def parseIntHex (s : List Char) : Option Int :=
  let s1 := s.dropWhile isSpaceJS
  let p := signSplit s1
  let s3 := dropHexMark p.2
  let digits := s3.takeWhile isHexDigit
  if digits.isEmpty then none
  else some (p.1 * (digitsVal digits : Int))

/-- `hi.replace(/^0x/, '')`: strip one leading lowercase `0x`. -/
def strip0x (s : List Char) : List Char :=
  if s.take 2 = ['0', 'x'] then s.drop 2 else s

/-- `hi.length > 8 ? hi.substr(0, hi.length - 8) : ''`. -/
def hiPart (t : List Char) : List Char :=
  if t.length > 8 then t.take (t.length - 8) else []

/-- `hi.substr(-8)`: the rightmost up to 8 characters. -/
def loPart (t : List Char) : List Char := t.drop (t.length - 8)

/-- The string path of `setValue` (single string argument).  Never throws. -/
def setValueStr (b : List Nat) (o : Nat) (s : List Char) : List Nat :=
  let t := strip0x s
  writeHiLo b o (parseIntHex (hiPart t)) (parseIntHex (loPart t))

/-- The raw-halves path of `setValue` (two number arguments): straight to
the byte-copy loop, no sign step, no range validation. -/
def setValueHiLo (b : List Nat) (o : Nat) (hi lo : Int) : List Nat :=
  writeHiLo b o (some hi) (some lo)

/-- Shape of the single constructor/`setValue` argument. -/
inductive JSArg where
  | num : Int → JSArg
  | str : List Char → JSArg
  | other : JSArg

/-- `setValue` with one argument: number path, string path, or
`throw Error(hi + ' must be a Number or String')` (modelled as `none`). -/
def setValue1 (b : List Nat) (o : Nat) : JSArg → Option (List Nat)
  | JSArg.num n => setValueNum b o n
  | JSArg.str s => some (setValueStr b o s)
  | JSArg.other => none

/-- A fresh `new Buffer(8)`.  Its initial contents are unspecified in Node;
every construction path overwrites all 8 bytes before they can be read, so
zero-filled is an equivalent model. -/
def freshBuf : List Nat := [0, 0, 0, 0, 0, 0, 0, 0]

/-- `new Int64(number)`: owned buffer at offset 0, numeric `setValue`. -/
def mkInt64Num (n : Int) : Option (List Nat) := setValueNum freshBuf 0 n

/-- `new Int64(string)`: owned buffer at offset 0, string `setValue`. -/
def mkInt64Str (s : List Char) : List Nat := setValueStr freshBuf 0 s

/-- `new Int64(hi, lo)`: owned buffer at offset 0, raw-halves `setValue`. -/
def mkInt64HiLo (hi lo : Int) : List Nat := setValueHiLo freshBuf 0 hi lo

/-- The Int64 object state: the wrapped buffer and the byte offset. -/
structure Int64V where
  buffer : List Nat
  offset : Nat
deriving DecidableEq, Repr

/-- `new Int64(buffer[, offset])`: the view construction path.  Stores the
caller's buffer itself and `a2 || 0`; touches no bytes, checks nothing. -/
def mkView (buf : List Nat) (off : Option Nat) : Int64V :=
  { buffer := buf, offset := match off with | none => 0 | some k => k }

/-- `_HEX[v]` for a byte `v`: two lowercase hex digit characters. -/
def hexDigitChar (n : Nat) : Char :=
  if n < 10 then Char.ofNat (48 + n) else Char.ofNat (87 + n)

/-- `_HEX[v] = (v > 0xF ? '' : '0') + v.toString(16)` for `v < 256`. -/
def hexByte (v : Nat) : List Char := [hexDigitChar (v / 16), hexDigitChar (v % 16)]

/-- `toOctetString` with the default empty separator: the 8 octets of
`[o, o+8)`, most significant first. -/
def toOctetString (b : List Nat) (o : Nat) : List Char :=
  (List.range 8).flatMap (fun i => hexByte (byteAt b (o + i)))

/-- The signed 64-bit value stored at `[o, o+8)`, read as a big-endian
unsigned 2^64 word (the claims' notion of the stored value; two's
complement: values at or above 2^63 denote negatives). -/
def windowVal (b : List Nat) (o : Nat) : Nat :=
  byteAt b o * 72057594037927936 + byteAt b (o + 1) * 281474976710656 +
  byteAt b (o + 2) * 1099511627776 + byteAt b (o + 3) * 4294967296 +
  byteAt b (o + 4) * 16777216 + byteAt b (o + 5) * 65536 +
  byteAt b (o + 6) * 256 + byteAt b (o + 7)

/-! ### Helper lemmas about the embedding -/

theorem byteAt_set (b : List Nat) (i j v : Nat) :
    byteAt (b.set i v) j = if i = j ∧ j < b.length then v else byteAt b j := by
  induction b generalizing i j with
  | nil => simp [byteAt]
  | cons a t ih =>
    cases i with
    | zero =>
      cases j with
      | zero => simp [byteAt]
      | succ j => simp [byteAt]
    | succ i =>
      cases j with
      | zero => simp [byteAt]
      | succ j => simpa [byteAt, Nat.succ_lt_succ_iff] using ih i j

theorem byteAt_lt (b : List Nat) (hb : ∀ x ∈ b, x < 256) (i : Nat) (hi : i < b.length) :
    byteAt b i < 256 := by
  unfold byteAt
  rw [List.getD_eq_getElem b 0 hi]
  exact hb _ (List.getElem_mem hi)

set_option maxRecDepth 4096 in
theorem xor255_lt : ∀ y, y < 256 → Nat.xor y 255 = 255 - y := by decide

theorem xor_mod256 (x : Nat) : Nat.xor (x % 256) 255 = 255 - x % 256 :=
  xor255_lt _ (Nat.mod_lt _ (by norm_num))

set_option maxRecDepth 4096 in
theorem land128_lt : ∀ y, y < 256 → (Nat.land y 128 = 0 ↔ y < 128) := by decide

theorem jsToUint32_nat (k : Nat) : jsToUint32 (k : Int) = k % 4294967296 := by
  unfold jsToUint32
  omega

theorem setBytesAux_length (o : Nat) (hi : Option Int) :
    ∀ (i : Nat) (lo : Option Int) (b : List Nat), (setBytesAux o hi i lo b).length = b.length := by
  intro i
  induction i with
  | zero => intro lo b; simp [setBytesAux]
  | succ i ih => intro lo b; simp [setBytesAux, ih]

theorem setBytesAux_frame (o : Nat) (hi : Option Int) :
    ∀ (i : Nat) (lo : Option Int) (b : List Nat) (j : Nat), (j < o ∨ o + i + 1 ≤ j) →
      byteAt (setBytesAux o hi i lo b) j = byteAt b j := by
  intro i
  induction i with
  | zero =>
    intro lo b j hj
    simp only [setBytesAux]
    rw [byteAt_set, if_neg (by omega)]
  | succ i ih =>
    intro lo b j hj
    simp only [setBytesAux]
    rw [ih _ _ _ (by omega), byteAt_set, if_neg (by omega)]

theorem writeHiLo_length (b : List Nat) (o : Nat) (hi lo : Option Int) :
    (writeHiLo b o hi lo).length = b.length := setBytesAux_length o hi 7 lo b

theorem writeHiLo_frame (b : List Nat) (o : Nat) (hi lo : Option Int) (j : Nat)
    (hj : j < o ∨ o + 8 ≤ j) : byteAt (writeHiLo b o hi lo) j = byteAt b j :=
  setBytesAux_frame o hi 7 lo b j (by omega)

theorem twosCompIter_length (o : Nat) :
    ∀ (j c : Nat) (b : List Nat), (twosCompIter o j c b).length = b.length := by
  intro j
  induction j with
  | zero => intro c b; simp [twosCompIter]
  | succ j ih => intro c b; simp [twosCompIter, ih]

theorem twosCompIter_frame (o : Nat) :
    ∀ (j c : Nat) (b : List Nat) (i : Nat), (i < o ∨ o + j ≤ i) →
      byteAt (twosCompIter o j c b) i = byteAt b i := by
  intro j
  induction j with
  | zero => intro c b i h; simp [twosCompIter]
  | succ j ih =>
    intro c b i h
    simp only [twosCompIter]
    rw [ih _ _ _ (by omega), byteAt_set, if_neg (by omega)]

theorem twosComp_length (b : List Nat) (o : Nat) : (twosComp b o).length = b.length :=
  twosCompIter_length o 8 1 b

theorem twosComp_frame (b : List Nat) (o : Nat) (i : Nat) (h : i < o ∨ o + 8 ≤ i) :
    byteAt (twosComp b o) i = byteAt b i := twosCompIter_frame o 8 1 b i h

theorem list8_of_length (b : List Nat) (h : b.length = 8) :
    ∃ x0 x1 x2 x3 x4 x5 x6 x7, b = [x0, x1, x2, x3, x4, x5, x6, x7] := by
  rcases b with _ | ⟨x0, b⟩; · simp at h
  rcases b with _ | ⟨x1, b⟩; · simp at h
  rcases b with _ | ⟨x2, b⟩; · simp at h
  rcases b with _ | ⟨x3, b⟩; · simp at h
  rcases b with _ | ⟨x4, b⟩; · simp at h
  rcases b with _ | ⟨x5, b⟩; · simp at h
  rcases b with _ | ⟨x6, b⟩; · simp at h
  rcases b with _ | ⟨x7, b⟩; · simp at h
  rcases b with _ | ⟨x8, b⟩
  · exact ⟨x0, x1, x2, x3, x4, x5, x6, x7, rfl⟩
  · exfalso; simp [List.length_cons] at h

theorem rangeCondQ (m : Nat) :
    ((VAL32 : ℚ) < (m : ℚ) / (VAL32 : ℚ)) ↔ 18446744073709551616 < m := by
  rw [lt_div_iff₀ (by norm_num [VAL32])]
  rw [show ((VAL32 : ℚ) * (VAL32 : ℚ)) = ((18446744073709551616 : Nat) : ℚ) from by
    norm_num [VAL32]]
  exact_mod_cast Iff.rfl

/-! ### The claims -/

/-- Claim C3: numeric construction raises a RangeError exactly when the exact
high half `abs(n) / 2^32` exceeds 2^32 (equivalently, when `abs(n) > 2^64`);
when the high half does not exceed 2^32 the numeric path raises no error. -/
theorem C3_numeric_range_error (b : List Nat) (o : Nat) (n : Int) :
    (setValueNum b o n = none ↔ (VAL32 : ℚ) < ((n.natAbs : Nat) : ℚ) / (VAL32 : ℚ)) ∧
    (setValueNum b o n = none ↔ 18446744073709551616 < n.natAbs) := by
  have key : setValueNum b o n = none ↔ (VAL32 : ℚ) < ((n.natAbs : Nat) : ℚ) / (VAL32 : ℚ) := by
    by_cases h : (VAL32 : ℚ) < ((n.natAbs : Nat) : ℚ) / (VAL32 : ℚ)
    · simp [setValueNum, h]
    · simp [setValueNum, h]
  exact ⟨key, key.trans (rangeCondQ _)⟩

/-- Claim C4: the in-place two's-complement transform is an involution on
every 8-byte buffer. -/
theorem C4_twoscomp_involution (b : List Nat) (hlen : b.length = 8)
    (hb : ∀ x ∈ b, x < 256) : twosComp (twosComp b 0) 0 = b := by
  obtain ⟨a0, a1, a2, a3, a4, a5, a6, a7, rfl⟩ := list8_of_length b hlen
  have h0 : a0 < 256 := hb _ (by simp)
  have h1 : a1 < 256 := hb _ (by simp)
  have h2 : a2 < 256 := hb _ (by simp)
  have h3 : a3 < 256 := hb _ (by simp)
  have h4 : a4 < 256 := hb _ (by simp)
  have h5 : a5 < 256 := hb _ (by simp)
  have h6 : a6 < 256 := hb _ (by simp)
  have h7 : a7 < 256 := hb _ (by simp)
  simp only [twosComp, twosCompIter, byteAt, List.getD_cons_zero, List.getD_cons_succ,
    List.set_cons_zero, List.set_cons_succ, Nat.add_eq, Nat.add_zero, Nat.zero_add]
  rw [xor255_lt a0 h0, xor255_lt a1 h1, xor255_lt a2 h2, xor255_lt a3 h3,
    xor255_lt a4 h4, xor255_lt a5 h5, xor255_lt a6 h6, xor255_lt a7 h7]
  simp only [xor_mod256, List.cons.injEq, and_true]
  omega

/-- Witness for C4 at a concrete buffer. -/
theorem C4_twoscomp_involution_witness :
    twosComp (twosComp [0, 1, 2, 128, 255, 254, 7, 9] 0) 0 = [0, 1, 2, 128, 255, 254, 7, 9] :=
  C4_twoscomp_involution _ (by decide) (by decide)

/-- Claim C6 (code bug): for a view at offset 1 over a 9-byte buffer whose
byte 0 has the high bit set, `valueOf` returns `-Infinity` even though the
value's own most significant byte (at index offset + 0) has a clear high
bit and the stored value is 42: the source reads the sign from `b[0]`, not
`b[offset]`. -/
theorem C6_sign_from_absolute_zero :
    valueOf [128, 0, 0, 0, 0, 0, 0, 0, 42] 1 = JSNum.negInf ∧
    windowVal [128, 0, 0, 0, 0, 0, 0, 0, 42] 1 = 42 ∧
    byteAt [128, 0, 0, 0, 0, 0, 0, 0, 42] (1 + 0) < 128 := by decide

/-- Claim C7: view construction stores the caller's buffer as-is (no copy,
no validation, no error for any buffer size) and defaults the offset to 0. -/
theorem C7_view_construction (buf : List Nat) (off : Option Nat) :
    (mkView buf off).buffer = buf ∧ (mkView buf off).offset = off.getD 0 := by
  cases off <;> simp [mkView, Option.getD]

/-- Counterexample to claim C2 as stated: a view at offset 1 whose own
stored value is 2^63 - 1 (non-negative, magnitude at least 2^53, high bit
of the byte at index offset + 0 clear), for which `valueOf` returns
`-Infinity` instead of the claimed `+Infinity`, because the sign flag is
read from byte 0 of the underlying buffer. -/
theorem C2_counterexample :
    windowVal [128, 127, 255, 255, 255, 255, 255, 255, 255] 1 = 9223372036854775807 ∧
    byteAt [128, 127, 255, 255, 255, 255, 255, 255, 255] (1 + 0) < 128 ∧
    MAX_INT ≤ 9223372036854775807 ∧
    valueOf [128, 127, 255, 255, 255, 255, 255, 255, 255] 1 = JSNum.negInf ∧
    JSNum.negInf ≠ JSNum.posInf := by decide

/-- Claim C2 (amended): the sign flag `valueOf` uses is the high bit of the
byte at absolute index 0 of the underlying buffer (which is the value's own
most significant byte only when the offset is 0 — see C6).  Whenever the
magnitude `valueOf` accumulates (the two's complement of the stored window
when that flag is set, the window itself otherwise) is at least 2^53,
`valueOf` returns the infinity matching that flag.  Constructing from raw
halves (0x00200000, 0x00000000) and extracting yields +Infinity.  `valueOf`
always returns a JS number (it never throws), rendered here by its total
result type. -/
theorem C2_infinity_boundary :
    (∀ (b : List Nat) (o : Nat), o + 8 ≤ b.length → (∀ x ∈ b, x < 256) →
      ((128 ≤ byteAt b 0 →
          MAX_INT ≤ (18446744073709551616 - windowVal b o) % 18446744073709551616 →
          valueOf b o = JSNum.negInf) ∧
        (byteAt b 0 < 128 → MAX_INT ≤ windowVal b o → valueOf b o = JSNum.posInf))) ∧
    valueOf (mkInt64HiLo 2097152 0) 0 = JSNum.posInf ∧
    (∀ (b : List Nat) (o : Nat),
      valueOf b o = JSNum.posInf ∨ valueOf b o = JSNum.negInf ∨
        ∃ k : Int, valueOf b o = JSNum.finite k) := by
  refine ⟨?_, by decide, ?_⟩
  · intro b o hlen hb
    have n0 : byteAt b 0 < 256 := byteAt_lt b hb 0 (by omega)
    have k0 : byteAt b o < 256 := byteAt_lt b hb o (by omega)
    have k1 : byteAt b (o + 1) < 256 := byteAt_lt b hb _ (by omega)
    have k2 : byteAt b (o + 2) < 256 := byteAt_lt b hb _ (by omega)
    have k3 : byteAt b (o + 3) < 256 := byteAt_lt b hb _ (by omega)
    have k4 : byteAt b (o + 4) < 256 := byteAt_lt b hb _ (by omega)
    have k5 : byteAt b (o + 5) < 256 := byteAt_lt b hb _ (by omega)
    have k6 : byteAt b (o + 6) < 256 := byteAt_lt b hb _ (by omega)
    have k7 : byteAt b (o + 7) < 256 := byteAt_lt b hb _ (by omega)
    constructor
    · intro hneg hM
      have hbool : (Nat.land (byteAt b 0) 128 != 0) = true := by
        simp only [bne_iff_ne, ne_eq]
        rw [land128_lt _ n0]
        omega
      simp only [MAX_INT, windowVal] at hM
      simp only [valueOf, hbool, if_true, valueOfAux, MAX_INT]
      norm_num
      rw [xor255_lt (byteAt b (o + 7)) k7, xor255_lt (byteAt b (o + 6)) k6,
        xor255_lt (byteAt b (o + 5)) k5, xor255_lt (byteAt b (o + 4)) k4,
        xor255_lt (byteAt b (o + 3)) k3, xor255_lt (byteAt b (o + 2)) k2,
        xor255_lt (byteAt b (o + 1)) k1, xor255_lt (byteAt b o) k0]
      intro hlt
      exfalso
      omega
    · intro hpos hM
      have hbool : (Nat.land (byteAt b 0) 128 != 0) = false := by
        simp only [bne_eq_false_iff_eq]
        exact (land128_lt _ n0).mpr hpos
      simp only [MAX_INT, windowVal] at hM
      simp only [valueOf, hbool, valueOfAux, MAX_INT]
      norm_num
      intro hlt
      exfalso
      omega
  · intro b o
    rcases h : valueOf b o with k | _ | _
    · exact Or.inr (Or.inr ⟨k, rfl⟩)
    · exact Or.inl rfl
    · exact Or.inr (Or.inl rfl)

/-- Witness for C2 (amended) at a concrete negative buffer. -/
theorem C2_infinity_boundary_witness :
    valueOf [128, 0, 0, 0, 0, 0, 0, 0] 0 = JSNum.negInf :=
  (C2_infinity_boundary.1 [128, 0, 0, 0, 0, 0, 0, 0] 0 (by decide) (by decide)).1
    (by decide) (by decide)

/-- The byte-copy loop on a fresh owned buffer at offset 0, fed the 32/32
split of a magnitude `m`, stores the 8 big-endian base-256 digits of
`m mod 2^64`. -/
theorem writeHiLo_fresh (m : Nat) :
    writeHiLo freshBuf 0 (some ((m / VAL32 % VAL32 : Nat) : Int)) (some ((m % VAL32 : Nat) : Int)) =
      [m / 72057594037927936 % 256, m / 281474976710656 % 256, m / 1099511627776 % 256,
       m / 4294967296 % 256, m / 16777216 % 256, m / 65536 % 256, m / 256 % 256, m % 256] := by
  simp [writeHiLo, setBytesAux, freshBuf, jsAnd255, jsShr8, VAL32, List.cons.injEq]
  omega

/-- `_2scomp` on the byte encoding of `m` yields the byte encoding of
`(2^64 - m) mod 2^64`. -/
theorem twosComp_fresh (m : Nat) (hm : m < 18446744073709551616) :
    twosComp [m / 72057594037927936 % 256, m / 281474976710656 % 256, m / 1099511627776 % 256,
       m / 4294967296 % 256, m / 16777216 % 256, m / 65536 % 256, m / 256 % 256, m % 256] 0 =
      [(18446744073709551616 - m) % 18446744073709551616 / 72057594037927936 % 256,
       (18446744073709551616 - m) % 18446744073709551616 / 281474976710656 % 256,
       (18446744073709551616 - m) % 18446744073709551616 / 1099511627776 % 256,
       (18446744073709551616 - m) % 18446744073709551616 / 4294967296 % 256,
       (18446744073709551616 - m) % 18446744073709551616 / 16777216 % 256,
       (18446744073709551616 - m) % 18446744073709551616 / 65536 % 256,
       (18446744073709551616 - m) % 18446744073709551616 / 256 % 256,
       (18446744073709551616 - m) % 18446744073709551616 % 256] := by
  simp [twosComp, twosCompIter, byteAt, xor_mod256, List.cons.injEq]
  omega

set_option maxHeartbeats 2000000 in
/-- When the sign flag (high bit of `b[0]`) is clear and the stored window
value is below 2^53, `valueOf` returns that value exactly. -/
theorem valueOf_pos_finite (b : List Nat) (o : Nat) (hlen : o + 8 ≤ b.length)
    (hb : ∀ x ∈ b, x < 256) (hflag : byteAt b 0 < 128)
    (hsmall : windowVal b o < MAX_INT) :
    valueOf b o = JSNum.finite ((windowVal b o : Nat) : Int) := by
  have n0 : byteAt b 0 < 256 := byteAt_lt b hb 0 (by omega)
  have k0 : byteAt b o < 256 := byteAt_lt b hb o (by omega)
  have k1 : byteAt b (o + 1) < 256 := byteAt_lt b hb _ (by omega)
  have k2 : byteAt b (o + 2) < 256 := byteAt_lt b hb _ (by omega)
  have k3 : byteAt b (o + 3) < 256 := byteAt_lt b hb _ (by omega)
  have k4 : byteAt b (o + 4) < 256 := byteAt_lt b hb _ (by omega)
  have k5 : byteAt b (o + 5) < 256 := byteAt_lt b hb _ (by omega)
  have k6 : byteAt b (o + 6) < 256 := byteAt_lt b hb _ (by omega)
  have k7 : byteAt b (o + 7) < 256 := byteAt_lt b hb _ (by omega)
  have hbool : (Nat.land (byteAt b 0) 128 != 0) = false := by
    simp only [bne_eq_false_iff_eq]
    exact (land128_lt _ n0).mpr hflag
  simp only [MAX_INT, windowVal] at hsmall ⊢
  simp only [valueOf, hbool, valueOfAux, MAX_INT]
  norm_num
  split
  · exfalso
    omega
  · simp only [JSNum.finite.injEq]
    omega

set_option maxHeartbeats 2000000 in
/-- When the sign flag (high bit of `b[0]`) is set and the two's complement
of the stored window value is below 2^53, `valueOf` returns its negation. -/
theorem valueOf_neg_finite (b : List Nat) (o : Nat) (hlen : o + 8 ≤ b.length)
    (hb : ∀ x ∈ b, x < 256) (hflag : 128 ≤ byteAt b 0)
    (hsmall : (18446744073709551616 - windowVal b o) % 18446744073709551616 < MAX_INT) :
    valueOf b o =
      JSNum.finite
        (-((((18446744073709551616 - windowVal b o) % 18446744073709551616 : Nat) : Int))) := by
  have n0 : byteAt b 0 < 256 := byteAt_lt b hb 0 (by omega)
  have k0 : byteAt b o < 256 := byteAt_lt b hb o (by omega)
  have k1 : byteAt b (o + 1) < 256 := byteAt_lt b hb _ (by omega)
  have k2 : byteAt b (o + 2) < 256 := byteAt_lt b hb _ (by omega)
  have k3 : byteAt b (o + 3) < 256 := byteAt_lt b hb _ (by omega)
  have k4 : byteAt b (o + 4) < 256 := byteAt_lt b hb _ (by omega)
  have k5 : byteAt b (o + 5) < 256 := byteAt_lt b hb _ (by omega)
  have k6 : byteAt b (o + 6) < 256 := byteAt_lt b hb _ (by omega)
  have k7 : byteAt b (o + 7) < 256 := byteAt_lt b hb _ (by omega)
  have hbool : (Nat.land (byteAt b 0) 128 != 0) = true := by
    simp only [bne_iff_ne, ne_eq]
    rw [land128_lt _ n0]
    omega
  simp only [MAX_INT, windowVal] at hsmall ⊢
  simp only [valueOf, hbool, if_true, valueOfAux, MAX_INT]
  norm_num
  rw [xor255_lt (byteAt b (o + 7)) k7, xor255_lt (byteAt b (o + 6)) k6,
    xor255_lt (byteAt b (o + 5)) k5, xor255_lt (byteAt b (o + 4)) k4,
    xor255_lt (byteAt b (o + 3)) k3, xor255_lt (byteAt b (o + 2)) k2,
    xor255_lt (byteAt b (o + 1)) k1, xor255_lt (byteAt b o) k0]
  split
  · exfalso
    omega
  · simp only [JSNum.finite.injEq]
    omega

/-- Claim C1: for every native number `n` with `|n| < 2^53` (modelled at the
integer points, which are exactly the doubles with integer precision in
that range), constructing an Int64 through the numeric path and extracting
with `valueOf` yields exactly `n`. -/
theorem C1_numeric_roundtrip (n : Int) (h : n.natAbs < 9007199254740992) :
    Option.map (fun b => valueOf b 0) (mkInt64Num n) = some (JSNum.finite n) := by
  have hQ : ¬ ((VAL32 : ℚ) < ((n.natAbs : Nat) : ℚ) / (VAL32 : ℚ)) := by
    rw [rangeCondQ]
    omega
  by_cases hn : n < 0
  · simp only [mkInt64Num, setValueNum, if_neg hQ, if_pos hn, Option.map_some']
    rw [writeHiLo_fresh, twosComp_fresh _ (by omega), valueOf_neg_finite]
    · simp only [Option.some.injEq, JSNum.finite.injEq, windowVal, byteAt, List.getD_cons_zero,
        List.getD_cons_succ, Nat.zero_add]
      omega
    · simp
    · intro x hx
      simp at hx
      omega
    · simp only [byteAt, List.getD_cons_zero]
      omega
    · simp only [windowVal, byteAt, List.getD_cons_zero, List.getD_cons_succ,
        Nat.zero_add, MAX_INT]
      omega
  · simp only [mkInt64Num, setValueNum, if_neg hQ, if_neg hn, Option.map_some']
    rw [writeHiLo_fresh, valueOf_pos_finite]
    · simp only [Option.some.injEq, JSNum.finite.injEq, windowVal, byteAt, List.getD_cons_zero,
        List.getD_cons_succ, Nat.zero_add]
      omega
    · simp
    · intro x hx
      simp at hx
      omega
    · simp only [byteAt, List.getD_cons_zero]
      omega
    · simp only [windowVal, byteAt, List.getD_cons_zero, List.getD_cons_succ,
        Nat.zero_add, MAX_INT]
      omega

/-- Witness for C1 at `n = -42`. -/
theorem C1_numeric_roundtrip_witness :
    Option.map (fun b => valueOf b 0) (mkInt64Num (-42)) = some (JSNum.finite (-42)) :=
  C1_numeric_roundtrip (-42) (by decide)

/-- Claim C8: raw-halves construction writes `hi`'s four bytes at indices
0-3 and `lo`'s four bytes at indices 4-7, most significant byte first
within each half, so the octet string shows `hi`'s octets before `lo`'s. -/
theorem C8_raw_halves_layout (hi lo : Nat) (hhi : hi < 4294967296) (hlo : lo < 4294967296) :
    mkInt64HiLo (hi : Int) (lo : Int) =
      [hi / 16777216 % 256, hi / 65536 % 256, hi / 256 % 256, hi % 256,
       lo / 16777216 % 256, lo / 65536 % 256, lo / 256 % 256, lo % 256] ∧
    toOctetString (mkInt64HiLo (hi : Int) (lo : Int)) 0 =
      (hexByte (hi / 16777216 % 256) ++ hexByte (hi / 65536 % 256) ++
        hexByte (hi / 256 % 256) ++ hexByte (hi % 256)) ++
      (hexByte (lo / 16777216 % 256) ++ hexByte (lo / 65536 % 256) ++
        hexByte (lo / 256 % 256) ++ hexByte (lo % 256)) := by
  have hbytes : mkInt64HiLo (hi : Int) (lo : Int) =
      [hi / 16777216 % 256, hi / 65536 % 256, hi / 256 % 256, hi % 256,
       lo / 16777216 % 256, lo / 65536 % 256, lo / 256 % 256, lo % 256] := by
    simp [mkInt64HiLo, setValueHiLo, writeHiLo, setBytesAux, freshBuf, jsAnd255, jsShr8,
      List.cons.injEq]
    omega
  refine ⟨hbytes, ?_⟩
  rw [hbytes]
  simp [toOctetString, byteAt, List.range_succ]

/-- Witness for C8 at `hi = 0x12345678`, `lo = 0x9abcdef0`. -/
theorem C8_raw_halves_layout_witness :
    mkInt64HiLo 305419896 2596069104 = [18, 52, 86, 120, 154, 188, 222, 240] := by
  have h := (C8_raw_halves_layout 305419896 2596069104 (by decide) (by decide)).1
  exact h.trans (by decide)

/-- Claim C9: every successful `setValue` call (any of the three one-argument
paths, and the raw-halves path) writes only `[offset, offset + 8)`: the
buffer keeps its length and every byte outside that region is unchanged. -/
theorem C9_setvalue_frame :
    (∀ (b : List Nat) (o : Nat) (a : JSArg) (r : List Nat), setValue1 b o a = some r →
      r.length = b.length ∧ ∀ j, j < o ∨ o + 8 ≤ j → byteAt r j = byteAt b j) ∧
    (∀ (b : List Nat) (o : Nat) (hi lo : Int) (j : Nat), j < o ∨ o + 8 ≤ j →
      (setValueHiLo b o hi lo).length = b.length ∧
      byteAt (setValueHiLo b o hi lo) j = byteAt b j) := by
  constructor
  · intro b o a r hr
    cases a with
    | num n =>
      simp only [setValue1, setValueNum] at hr
      split at hr
      · exact Option.noConfusion hr
      · rw [Option.some.injEq] at hr
        subst hr
        by_cases hn : n < 0
        · simp only [if_pos hn]
          refine ⟨(twosComp_length _ _).trans (writeHiLo_length _ _ _ _), ?_⟩
          intro j hj
          rw [twosComp_frame _ _ _ hj, writeHiLo_frame _ _ _ _ _ hj]
        · simp only [if_neg hn]
          exact ⟨writeHiLo_length _ _ _ _, fun j hj => writeHiLo_frame _ _ _ _ _ hj⟩
    | str s =>
      simp only [setValue1, Option.some.injEq] at hr
      subst hr
      simp only [setValueStr]
      exact ⟨writeHiLo_length _ _ _ _, fun j hj => writeHiLo_frame _ _ _ _ _ hj⟩
    | other =>
      exact Option.noConfusion hr
  · intro b o hi lo j hj
    simp only [setValueHiLo]
    exact ⟨writeHiLo_length _ _ _ _, writeHiLo_frame _ _ _ _ _ hj⟩

/-- Witness for C9: a string-path `setValue` at offset 1 in a 10-byte buffer
leaves byte 0 unchanged. -/
theorem C9_setvalue_frame_witness :
    byteAt [9, 0, 0, 0, 0, 0, 0, 0, 18, 9] 0 = byteAt [9, 9, 9, 9, 9, 9, 9, 9, 9, 9] 0 :=
  (C9_setvalue_frame.1 [9, 9, 9, 9, 9, 9, 9, 9, 9, 9] 1 (JSArg.str ['1', '2'])
    [9, 0, 0, 0, 0, 0, 0, 0, 18, 9] (by decide)).2 0 (by decide)

/-- Claim C10: constructing from any string never raises (the string path
has no throw), and a half whose `parseInt` comes back NaN is written as four
zero bytes: hi-NaN zeroes bytes 0-3, lo-NaN zeroes bytes 4-7. -/
theorem C10_string_total :
    (∀ (b : List Nat) (o : Nat) (s : List Char), (setValue1 b o (JSArg.str s)).isSome = true) ∧
    (∀ s : List Char, parseIntHex (hiPart (strip0x s)) = none →
      (byteAt (mkInt64Str s) 0 = 0 ∧ byteAt (mkInt64Str s) 1 = 0 ∧
       byteAt (mkInt64Str s) 2 = 0 ∧ byteAt (mkInt64Str s) 3 = 0)) ∧
    (∀ s : List Char, parseIntHex (loPart (strip0x s)) = none →
      (byteAt (mkInt64Str s) 4 = 0 ∧ byteAt (mkInt64Str s) 5 = 0 ∧
       byteAt (mkInt64Str s) 6 = 0 ∧ byteAt (mkInt64Str s) 7 = 0)) := by
  refine ⟨?_, ?_, ?_⟩
  · intro b o s
    simp [setValue1]
  · intro s hna
    simp [mkInt64Str, setValueStr, hna, writeHiLo, setBytesAux, freshBuf, jsAnd255, jsShr8, byteAt]
  · intro s hla
    simp [mkInt64Str, setValueStr, hla, writeHiLo, setBytesAux, freshBuf, jsAnd255, jsShr8, byteAt]

/-- Witness for C10 at the non-hex string `"zz"`. -/
theorem C10_string_total_witness : byteAt (mkInt64Str ['z', 'z']) 0 = 0 :=
  (C10_string_total.2.1 ['z', 'z'] (by decide)).1

theorem hexVal_lt (c : Char) : hexVal c < 16 := by
  unfold hexVal
  split_ifs <;> omega

set_option maxRecDepth 4096 in
theorem hexChar_facts : ∀ c : Char, isHexDigit c = true →
    (hexDigitChar (hexVal c) = c.toLower ∧ isSpaceJS c = false ∧
     c ≠ 'x' ∧ c ≠ 'X' ∧ c ≠ '-' ∧ c ≠ '+') := by
  intro c hc
  simp [isHexDigit] at hc
  rcases hc with rfl | rfl | rfl | rfl | rfl | rfl | rfl | rfl | rfl | rfl | rfl | rfl | rfl |
    rfl | rfl | rfl | rfl | rfl | rfl | rfl | rfl | rfl <;> decide

/-- `parseInt(s, 16)` on a string of exactly 8 hex digits parses the whole
string as an unsigned base-16 number. -/
theorem parseIntHex_digits8 (c0 c1 c2 c3 c4 c5 c6 c7 : Char)
    (h0 : isHexDigit c0 = true) (h1 : isHexDigit c1 = true) (h2 : isHexDigit c2 = true)
    (h3 : isHexDigit c3 = true) (h4 : isHexDigit c4 = true) (h5 : isHexDigit c5 = true)
    (h6 : isHexDigit c6 = true) (h7 : isHexDigit c7 = true) :
    parseIntHex [c0, c1, c2, c3, c4, c5, c6, c7] =
      some ((digitsVal [c0, c1, c2, c3, c4, c5, c6, c7] : Nat) : Int) := by
  obtain ⟨l0, s0, x0, X0, m0, p0⟩ := hexChar_facts c0 h0
  obtain ⟨l1, s1, x1, X1, m1, p1⟩ := hexChar_facts c1 h1
  unfold parseIntHex signSplit dropHexMark
  simp [s0, m0, p0, x1, X1, h0, h1, h2, h3, h4, h5, h6, h7, List.takeWhile]

theorem strip0x_no (a bq : Char) (r : List Char) (h : bq ≠ 'x') :
    strip0x (a :: bq :: r) = a :: bq :: r := by
  simp [strip0x, h]

set_option maxHeartbeats 2000000 in
/-- Hex-string construction from 16 hex digits stores the 8 bytes formed by
consecutive digit pairs, most significant first. -/
theorem mkInt64Str_digits16 (c0 c1 c2 c3 c4 c5 c6 c7 c8 c9 c10 c11 c12 c13 c14 c15 : Char)
    (h0 : isHexDigit c0 = true) (h1 : isHexDigit c1 = true) (h2 : isHexDigit c2 = true)
    (h3 : isHexDigit c3 = true) (h4 : isHexDigit c4 = true) (h5 : isHexDigit c5 = true)
    (h6 : isHexDigit c6 = true) (h7 : isHexDigit c7 = true) (h8 : isHexDigit c8 = true)
    (h9 : isHexDigit c9 = true) (h10 : isHexDigit c10 = true) (h11 : isHexDigit c11 = true)
    (h12 : isHexDigit c12 = true) (h13 : isHexDigit c13 = true) (h14 : isHexDigit c14 = true)
    (h15 : isHexDigit c15 = true) :
    mkInt64Str [c0, c1, c2, c3, c4, c5, c6, c7, c8, c9, c10, c11, c12, c13, c14, c15] =
      [hexVal c0 * 16 + hexVal c1, hexVal c2 * 16 + hexVal c3, hexVal c4 * 16 + hexVal c5,
       hexVal c6 * 16 + hexVal c7, hexVal c8 * 16 + hexVal c9, hexVal c10 * 16 + hexVal c11,
       hexVal c12 * 16 + hexVal c13, hexVal c14 * 16 + hexVal c15] := by
  have b0 := hexVal_lt c0
  have b1 := hexVal_lt c1
  have b2 := hexVal_lt c2
  have b3 := hexVal_lt c3
  have b4 := hexVal_lt c4
  have b5 := hexVal_lt c5
  have b6 := hexVal_lt c6
  have b7 := hexVal_lt c7
  have b8 := hexVal_lt c8
  have b9 := hexVal_lt c9
  have b10 := hexVal_lt c10
  have b11 := hexVal_lt c11
  have b12 := hexVal_lt c12
  have b13 := hexVal_lt c13
  have b14 := hexVal_lt c14
  have b15 := hexVal_lt c15
  have x1 := (hexChar_facts c1 h1).2.2.1
  unfold mkInt64Str setValueStr
  rw [strip0x_no _ _ _ x1]
  simp only [hiPart, loPart, List.length_cons, List.length_nil]
  norm_num
  rw [parseIntHex_digits8 c0 c1 c2 c3 c4 c5 c6 c7 h0 h1 h2 h3 h4 h5 h6 h7,
    parseIntHex_digits8 c8 c9 c10 c11 c12 c13 c14 c15 h8 h9 h10 h11 h12 h13 h14 h15]
  simp [writeHiLo, setBytesAux, freshBuf, jsAnd255, jsShr8, digitsVal, List.cons.injEq]
  omega

/-- `_HEX` of the byte formed by two hex digits is those digits lowercased. -/
theorem hexByte_pair (a bq : Char) (ha : isHexDigit a = true) (hb : isHexDigit bq = true) :
    hexByte (hexVal a * 16 + hexVal bq) = [a.toLower, bq.toLower] := by
  have la := (hexChar_facts a ha).1
  have lb := (hexChar_facts bq hb).1
  have bnda := hexVal_lt a
  have bndb := hexVal_lt bq
  unfold hexByte
  rw [show (hexVal a * 16 + hexVal bq) / 16 = hexVal a from by omega,
    show (hexVal a * 16 + hexVal bq) % 16 = hexVal bq from by omega, la, lb]

theorem list16_of_length (ds : List Char) (h : ds.length = 16) :
    ∃ c0 c1 c2 c3 c4 c5 c6 c7 c8 c9 c10 c11 c12 c13 c14 c15,
      ds = [c0, c1, c2, c3, c4, c5, c6, c7, c8, c9, c10, c11, c12, c13, c14, c15] := by
  rcases ds with _ | ⟨c0, ds⟩; · simp at h
  rcases ds with _ | ⟨c1, ds⟩; · simp at h
  rcases ds with _ | ⟨c2, ds⟩; · simp at h
  rcases ds with _ | ⟨c3, ds⟩; · simp at h
  rcases ds with _ | ⟨c4, ds⟩; · simp at h
  rcases ds with _ | ⟨c5, ds⟩; · simp at h
  rcases ds with _ | ⟨c6, ds⟩; · simp at h
  rcases ds with _ | ⟨c7, ds⟩; · simp at h
  rcases ds with _ | ⟨c8, ds⟩; · simp at h
  rcases ds with _ | ⟨c9, ds⟩; · simp at h
  rcases ds with _ | ⟨c10, ds⟩; · simp at h
  rcases ds with _ | ⟨c11, ds⟩; · simp at h
  rcases ds with _ | ⟨c12, ds⟩; · simp at h
  rcases ds with _ | ⟨c13, ds⟩; · simp at h
  rcases ds with _ | ⟨c14, ds⟩; · simp at h
  rcases ds with _ | ⟨c15, ds⟩; · simp at h
  rcases ds with _ | ⟨c16, ds⟩
  · exact ⟨c0, c1, c2, c3, c4, c5, c6, c7, c8, c9, c10, c11, c12, c13, c14, c15, rfl⟩
  · exfalso; simp [List.length_cons] at h

set_option maxHeartbeats 2000000 in
/-- Claim C5: for every 16-hex-digit string, with or without a leading `0x`
prefix, constructing an Int64 from it and rendering the octet string with
no separator gives back the digits lowercased (the prefix stripped). -/
theorem C5_hex_roundtrip (ds : List Char) (hlen : ds.length = 16)
    (hhex : ∀ c ∈ ds, isHexDigit c = true) :
    toOctetString (mkInt64Str ds) 0 = ds.map Char.toLower ∧
    toOctetString (mkInt64Str ('0' :: 'x' :: ds)) 0 = ds.map Char.toLower := by
  obtain ⟨c0, c1, c2, c3, c4, c5, c6, c7, c8, c9, c10, c11, c12, c13, c14, c15, rfl⟩ :=
    list16_of_length ds hlen
  have h0 : isHexDigit c0 = true := hhex _ (by simp)
  have h1 : isHexDigit c1 = true := hhex _ (by simp)
  have h2 : isHexDigit c2 = true := hhex _ (by simp)
  have h3 : isHexDigit c3 = true := hhex _ (by simp)
  have h4 : isHexDigit c4 = true := hhex _ (by simp)
  have h5 : isHexDigit c5 = true := hhex _ (by simp)
  have h6 : isHexDigit c6 = true := hhex _ (by simp)
  have h7 : isHexDigit c7 = true := hhex _ (by simp)
  have h8 : isHexDigit c8 = true := hhex _ (by simp)
  have h9 : isHexDigit c9 = true := hhex _ (by simp)
  have h10 : isHexDigit c10 = true := hhex _ (by simp)
  have h11 : isHexDigit c11 = true := hhex _ (by simp)
  have h12 : isHexDigit c12 = true := hhex _ (by simp)
  have h13 : isHexDigit c13 = true := hhex _ (by simp)
  have h14 : isHexDigit c14 = true := hhex _ (by simp)
  have h15 : isHexDigit c15 = true := hhex _ (by simp)
  have key := mkInt64Str_digits16 c0 c1 c2 c3 c4 c5 c6 c7 c8 c9 c10 c11 c12 c13 c14 c15
    h0 h1 h2 h3 h4 h5 h6 h7 h8 h9 h10 h11 h12 h13 h14 h15
  have key2 : mkInt64Str ('0' :: 'x' ::
      [c0, c1, c2, c3, c4, c5, c6, c7, c8, c9, c10, c11, c12, c13, c14, c15]) =
      mkInt64Str [c0, c1, c2, c3, c4, c5, c6, c7, c8, c9, c10, c11, c12, c13, c14, c15] := by
    unfold mkInt64Str setValueStr
    rw [show strip0x ('0' :: 'x' ::
        [c0, c1, c2, c3, c4, c5, c6, c7, c8, c9, c10, c11, c12, c13, c14, c15]) =
        [c0, c1, c2, c3, c4, c5, c6, c7, c8, c9, c10, c11, c12, c13, c14, c15] from rfl,
      strip0x_no _ _ _ (hexChar_facts c1 h1).2.2.1]
  have oct : toOctetString
      [hexVal c0 * 16 + hexVal c1, hexVal c2 * 16 + hexVal c3, hexVal c4 * 16 + hexVal c5,
       hexVal c6 * 16 + hexVal c7, hexVal c8 * 16 + hexVal c9, hexVal c10 * 16 + hexVal c11,
       hexVal c12 * 16 + hexVal c13, hexVal c14 * 16 + hexVal c15] 0 =
      [c0.toLower, c1.toLower, c2.toLower, c3.toLower, c4.toLower, c5.toLower, c6.toLower,
       c7.toLower, c8.toLower, c9.toLower, c10.toLower, c11.toLower, c12.toLower, c13.toLower,
       c14.toLower, c15.toLower] := by
    simp only [toOctetString, byteAt, List.getD_cons_zero, List.getD_cons_succ, Nat.zero_add]
    norm_num [List.range_succ]
    rw [hexByte_pair c0 c1 h0 h1, hexByte_pair c2 c3 h2 h3, hexByte_pair c4 c5 h4 h5,
      hexByte_pair c6 c7 h6 h7, hexByte_pair c8 c9 h8 h9, hexByte_pair c10 c11 h10 h11,
      hexByte_pair c12 c13 h12 h13, hexByte_pair c14 c15 h14 h15]
    simp
  constructor
  · rw [key, oct]
    simp
  · rw [key2, key, oct]
    simp

/-- Witness for C5 at the mixed-case string `"0123456789AbCdEf"`. -/
theorem C5_hex_roundtrip_witness :
    toOctetString (mkInt64Str (("0123456789AbCdEf").toList)) 0 =
      ("0123456789abcdef").toList := by
  have h := (C5_hex_roundtrip (("0123456789AbCdEf").toList) (by decide) (by decide)).1
  exact h.trans (by decide)
